import Mathlib

/-!
Verification development for the hello-simone installer.

The installer ships in two variants inside the repository:
- src/unnamed/part_001 (CLI version 0.5.1): the two-edition installer with a
  stable v0.3 ("legacy") workflow and a preview v0.4 ("current") workflow,
  selected by the --preview flag, with downgrade refusal and timestamped
  backups.
- src/index.js (CLI version 0.5.4): a single-workflow installer with a
  fixed-name command backup directory and a latest-version lookup.

This file gives a shallow embedding of both variants.  Pure decision logic is
translated into Lean functions; effectful runs are modelled as the sequence of
filesystem/console actions the run performs (an action trace), parameterised
by an environment that fixes the pre-existing filesystem, the interactive
answers, the wall-clock timestamp, and the success of each network fetch.
-/

namespace HelloSimone

/-! ## Filesystem-marker model and the installation classifier

The probing functions only ever test existence of fixed relative paths, so a
filesystem is modelled as the list of paths that exist. -/

/-- A filesystem state, as the set (list) of paths that exist. -/
abbrev FS := List String

/-- Model of checkExistingV3Installation (src/unnamed/part_001 lines 161-173):
a v0.3 installation is detected when the sprints directory or the
requirements directory exists. -/
def checkExistingV3Installation (fs : FS) : Bool :=
  fs.contains ".simone/03_SPRINTS" || fs.contains ".simone/02_REQUIREMENTS"

/-- Model of checkExistingV4Installation (src/unnamed/part_001 lines 175-182):
a v0.4 installation is detected when the constitution marker file exists. -/
def checkExistingV4Installation (fs : FS) : Bool :=
  fs.contains ".simone/00_FOUNDATION/CONSTITUTION.md"

/-- The three prior-installation categories of the spec's data model. -/
inductive InstallationState where
  | ABSENT
  | LEGACY
  | CURRENT
  deriving DecidableEq, Repr

/-- The classifier as the orchestrator combines the two probes: installSimone
(src/unnamed/part_001) branches on hasV4 first (lines 255/269/288 in the
preview workflow and lines 311/317/320 in the stable workflow), so the v0.4
marker takes precedence over v0.3 markers. -/
def classify (fs : FS) : InstallationState :=
  if checkExistingV4Installation fs then .CURRENT
  else if checkExistingV3Installation fs then .LEGACY
  else .ABSENT

/-! ## Action traces for the orchestrator (src/unnamed/part_001) -/

/-- One observable action of an installer run.  mkdirA is a recursive mkdir;
renameA is a filesystem move; rmA is a recursive forced removal;
fetchFileA remote local is a downloadFile call (which creates the parent
directory and opens a write stream at the local path, then streams the body);
fetchTreeA remote local is a downloadDirectory call writing the remote tree
beneath the local path; promptA is an interactive confirmation prompt;
exitA n is process.exit(n); successA is the final success report. -/
inductive Action where
  | mkdirA (p : String)
  | renameA (src dst : String)
  | rmA (p : String)
  | fetchFileA (remote loc : String)
  | fetchTreeA (remote loc : String)
  | promptA
  | exitA (code : Nat)
  | successA
  deriving DecidableEq, Repr

/-- The run environment: the pre-existing filesystem, the CLI flag, the answer
the user gives to a confirmation prompt, the timestamp string produced for
backup directory names, and which remote fetches succeed (keyed by the
repo-relative remote path). -/
structure Env where
  fs : FS
  preview : Bool
  confirmAnswer : Bool
  timestamp : String
  fileOk : String → Bool
  treeOk : String → Bool

/-- Trace and success flag of a downloadFile call (src/unnamed/part_001 lines
129-143), at call granularity: the call creates the parent directory and
creates/truncates the destination file before the status check, so it is a
write to the local path even on a failed fetch; it succeeds iff the HTTP
fetch succeeds. -/
def downloadFileCall (env : Env) (remote loc : String) : List Action × Bool :=
  ([Action.fetchFileA remote loc], env.fileOk remote)

/-- Trace and success flag of a downloadDirectory call (src/unnamed/part_001
lines 145-159), at call granularity; the detailed recursive model is given
separately below.  It succeeds iff listing and every download beneath the
remote path succeed. -/
def downloadDirectoryCall (env : Env) (remote loc : String) : List Action × Bool :=
  ([Action.fetchTreeA remote loc], env.treeOk remote)

/-- Backup directory path used by backupV3ForMigration (src/unnamed/part_001
line 190) for a given timestamp. -/
def backupPathOf (t : String) : String :=
  ".simone_backup/simone-v0.3-backup-" ++ t

/-- Trace of backupV3ForMigration (src/unnamed/part_001 lines 184-206):
create the backup root and the timestamped backup directory, then relocate
the management root and the command root, each only if it exists (the command
root relocation first creates its nested parent inside the backup). -/
def backupV3ForMigration (env : Env) : List Action :=
  [Action.mkdirA ".simone_backup", Action.mkdirA (backupPathOf env.timestamp)] ++
  (if env.fs.contains ".simone" then
    [Action.renameA ".simone" (backupPathOf env.timestamp ++ "/.simone")]
  else []) ++
  (if env.fs.contains ".claude/commands/simone" then
    [Action.mkdirA (backupPathOf env.timestamp ++ "/.claude/commands"),
     Action.renameA ".claude/commands/simone"
       (backupPathOf env.timestamp ++ "/.claude/commands/simone")]
  else [])

/-- Backup path used by updateV4Commands (src/unnamed/part_001 line 216). -/
def v4CommandsBackupPathOf (t : String) : String :=
  ".simone_backup/commands-v0.4-backup-" ++ t

/-- Trace and success flag of updateV4Commands (src/unnamed/part_001 lines
208-228): create the backup root, relocate the command root if it exists,
then fetch the command tree (no catch: a fetch failure propagates). -/
def updateV4Commands (env : Env) : List Action × Bool :=
  let backup :=
    [Action.mkdirA ".simone_backup"] ++
    (if env.fs.contains ".claude/commands/simone" then
      [Action.renameA ".claude/commands/simone" (v4CommandsBackupPathOf env.timestamp)]
    else [])
  let dl := downloadDirectoryCall env "framework/commands" ".claude/commands/simone"
  (backup ++ dl.1, dl.2)

/-- The eight management-root subdirectories created on a fresh v0.3 install
(src/unnamed/part_001 lines 323-327). -/
def simoneDirs : List String :=
  [".simone", ".simone/01_PROJECT_DOCS", ".simone/02_REQUIREMENTS",
   ".simone/03_SPRINTS", ".simone/04_GENERAL_TASKS", ".simone/05_ARCHITECTURE_DECISIONS",
   ".simone/10_STATE_OF_PROJECT", ".simone/99_TEMPLATES"]

/-- The four CLAUDE.md documentation files fetched into the management root
(src/unnamed/part_001 lines 337-340). -/
def claudeFiles : List String :=
  [".simone/CLAUDE.md", ".simone/02_REQUIREMENTS/CLAUDE.md",
   ".simone/03_SPRINTS/CLAUDE.md", ".simone/04_GENERAL_TASKS/CLAUDE.md"]

/-- Trace of the fresh v0.4 install / migration download phase: fetch the
management-root tree then the command tree, neither wrapped in a catch
(src/unnamed/part_001 lines 281-282 and 291-292); the surrounding try block
turns a failure into exit code 1 (lines 357-361). -/
def previewDownloadPhase (env : Env) : List Action :=
  let d1 := downloadDirectoryCall env "framework/.simone" ".simone"
  if !d1.2 then d1.1 ++ [Action.exitA 1]
  else
    let d2 := downloadDirectoryCall env "framework/commands" ".claude/commands/simone"
    d1.1 ++ d2.1 ++ (if d2.2 then [Action.successA] else [Action.exitA 1])

/-- Trace of installSimone (src/unnamed/part_001 lines 231-362).  Console
output and spinner updates are omitted (they are not filesystem actions); the
stable workflow re-runs the two pure existence checks with identical results,
which the model performs once.  Every downloadFile/downloadDirectory call in
the stable workflow is wrapped in catch and its failure swallowed, so the
stable workflow's trace does not depend on fetch outcomes; the preview
workflow propagates fetch failures to the top-level catch, which exits 1. -/
def installSimone (env : Env) : List Action :=
  let hasV3 := checkExistingV3Installation env.fs
  let hasV4 := checkExistingV4Installation env.fs
  if env.preview then
    if hasV4 then
      Action.promptA ::
        (if !env.confirmAnswer then [Action.exitA 0]
         else
           let u := updateV4Commands env
           u.1 ++ (if u.2 then [Action.successA] else [Action.exitA 1]))
    else if hasV3 then
      Action.promptA ::
        (if !env.confirmAnswer then [Action.exitA 0]
         else backupV3ForMigration env ++ previewDownloadPhase env)
    else
      previewDownloadPhase env
  else
    if hasV4 then [Action.exitA 1]
    else
      (if hasV3 then []
       else
         simoneDirs.map Action.mkdirA ++
         (downloadFileCall env ".simone/00_PROJECT_MANIFEST.md"
           ".simone/00_PROJECT_MANIFEST.md").1 ++
         (downloadDirectoryCall env ".simone/99_TEMPLATES" ".simone/99_TEMPLATES").1) ++
      claudeFiles.map (fun f => Action.fetchFileA f f) ++
      [Action.fetchTreeA ".claude/commands/simone" ".claude/commands/simone"] ++
      [Action.successA]

/-! ## Trace observations -/

/-- Whether an action writes to the local filesystem. -/
def isWrite : Action → Bool
  | .mkdirA _ => true
  | .renameA _ _ => true
  | .rmA _ => true
  | .fetchFileA _ _ => true
  | .fetchTreeA _ _ => true
  | _ => false

/-- The filesystem writes of a trace. -/
def writesOf (tr : List Action) : List Action := tr.filter isWrite

/-- Whether an action is a backup relocation. -/
def isRename : Action → Bool
  | .renameA _ _ => true
  | _ => false

/-- Whether an action fetches new content onto a local path. -/
def isFetch : Action → Bool
  | .fetchFileA _ _ => true
  | .fetchTreeA _ _ => true
  | _ => false

/-- The exit code of a run: the code of the first explicit exit in the trace,
or 0 when the process terminates normally. -/
def exitOf : List Action → Nat
  | [] => 0
  | Action.mkdirA _ :: rest => exitOf rest
  | Action.renameA _ _ :: rest => exitOf rest
  | Action.rmA _ :: rest => exitOf rest
  | Action.fetchFileA _ _ :: rest => exitOf rest
  | Action.fetchTreeA _ _ :: rest => exitOf rest
  | Action.promptA :: rest => exitOf rest
  | Action.exitA n :: _ => n
  | Action.successA :: rest => exitOf rest

/-- Whether the run reports success. -/
def reportedSuccess (tr : List Action) : Bool := tr.contains Action.successA

/-- No backup relocation occurs after any content fetch: once a fetch action
appears, the remainder of the trace contains no rename.  Equivalently, every
relocation in the trace precedes every fetch. -/
def renamesPrecedeFetches : List Action → Bool
  | [] => true
  | a :: rest =>
    if isFetch a then rest.all (fun b => !isRename b)
    else renamesPrecedeFetches rest

/-! ## The src/index.js installer variant -/

namespace IndexJs

/-- Model of checkExistingInstallation (src/index.js lines 98-110): same two
legacy marker directories as the part_001 v0.3 probe. -/
def checkExistingInstallation (fs : FS) : Bool :=
  fs.contains ".simone/03_SPRINTS" || fs.contains ".simone/02_REQUIREMENTS"

/-- Trace of backupCommands (src/index.js lines 112-127): if the command root
exists, remove any old backup at the fixed path .claude/simone-commands-backup,
create the parent directory, and move the command root there. -/
def backupCommands (env : Env) : List Action :=
  if env.fs.contains ".claude/commands/simone" then
    [Action.rmA ".claude/simone-commands-backup",
     Action.mkdirA ".claude",
     Action.renameA ".claude/commands/simone" ".claude/simone-commands-backup"]
  else []

/-- Trace of installSimone (src/index.js lines 130-203).  Every download is
wrapped in catch or only sets text, except that downloadDirectory failures in
index.js are caught at line 191 as well, so no fetch failure aborts the run;
the success report is always reached barring a filesystem error. -/
def installSimone (env : Env) : List Action :=
  if checkExistingInstallation env.fs then
    backupCommands env ++
    claudeFiles.map (fun f => Action.fetchFileA f f) ++
    [Action.fetchTreeA ".claude/commands/simone" ".claude/commands/simone"] ++
    [Action.successA]
  else
    simoneDirs.map Action.mkdirA ++
    (downloadFileCall env ".simone/00_PROJECT_MANIFEST.md"
      ".simone/00_PROJECT_MANIFEST.md").1 ++
    (downloadDirectoryCall env ".simone/99_TEMPLATES" ".simone/99_TEMPLATES").1 ++
    claudeFiles.map (fun f => Action.fetchFileA f f) ++
    [Action.fetchTreeA ".claude/commands/simone" ".claude/commands/simone"] ++
    [Action.successA]

end IndexJs

/-! ## Content-level model of the backup operations

For the backup claims the trace alone is not enough: we must track what data
sits where.  Backups relocate whole directory trees, so a filesystem is
modelled as a finite map from root paths to abstract content identifiers. -/

/-- A content-level filesystem: an association list from a path to the
abstract content of the subtree rooted there. -/
abbrev FsMap := List (String × Nat)

/-- Content stored at a path, if any. -/
def fsGet : FsMap → String → Option Nat
  | [], _ => none
  | e :: rest, p => if e.1 = p then some e.2 else fsGet rest p

/-- Whether a path exists. -/
def fsHas (fs : FsMap) (p : String) : Bool :=
  fs.any (fun e => e.1 = p)

/-- Remove a path (fs.rm with force: no error if absent). -/
def fsRemove : FsMap → String → FsMap
  | [], _ => []
  | e :: rest, p => if e.1 = p then fsRemove rest p else e :: fsRemove rest p

/-- Bind a path to content, replacing any previous binding. -/
def fsSet (fs : FsMap) (p : String) (c : Nat) : FsMap :=
  (p, c) :: fsRemove fs p

/-- Move the subtree at src to dst (fs.rename); no-op when src is absent.
This models the collision-free case: renaming onto an existing non-empty
directory would raise in Node, which none of the theorems below rely on. -/
def fsRename (fs : FsMap) (src dst : String) : FsMap :=
  match fsGet fs src with
  | some c => fsSet (fsRemove fs src) dst c
  | none => fs

/-- Content-level model of backupCommands (src/index.js lines 112-127): the
old backup at the fixed path is deleted before the command root is moved onto
that same fixed path. -/
def backupCommandsFs (fs : FsMap) : FsMap :=
  if fsHas fs ".claude/commands/simone" then
    fsRename (fsRemove fs ".claude/simone-commands-backup")
      ".claude/commands/simone" ".claude/simone-commands-backup"
  else fs

/-- Content-level model of backupV3ForMigration (src/unnamed/part_001 lines
184-206): relocate the management root and then the command root into the
timestamped backup directory, each only if present. -/
def backupV3ForMigrationFs (t : String) (fs : FsMap) : FsMap :=
  fsRename (fsRename fs ".simone" (backupPathOf t ++ "/.simone"))
    ".claude/commands/simone" (backupPathOf t ++ "/.claude/commands/simone")

/-- Content-level model of the backup step of updateV4Commands
(src/unnamed/part_001 lines 211-218): relocate the command root to the
timestamped commands backup path, if the command root is present. -/
def updateV4CommandsBackupFs (t : String) (fs : FsMap) : FsMap :=
  fsRename fs ".claude/commands/simone" (v4CommandsBackupPathOf t)

/-! ## Recursive model of downloadDirectory (fetchTree)

A remote directory listing is a sequence of entries, each a file (with its
byte content and the success of its download) or a subdirectory (with the
success of its listing and its own entries).  The sequence is encoded as a
single inductive so that plain structural induction applies. -/

/-- A remote directory listing.  consFile name content ok rest is a file
entry whose download succeeds iff ok; consDir name listOk sub rest is a
directory entry whose listing succeeds iff listOk and whose entries are
sub. -/
inductive RNode where
  | nilE : RNode
  | consFile (name content : String) (ok : Bool) (rest : RNode) : RNode
  | consDir (name : String) (listOk : Bool) (sub : RNode) (rest : RNode) : RNode
  deriving DecidableEq, Repr

/-- A local filesystem entry produced by a fetch: a directory or a file with
its byte content. -/
inductive LEntry where
  | dirL (path : String) : LEntry
  | fileL (path content : String) : LEntry
  deriving DecidableEq, Repr

/-- Number of file entries in a remote listing, recursively. -/
def filesCount : RNode → Nat
  | .nilE => 0
  | .consFile _ _ _ r => 1 + filesCount r
  | .consDir _ _ s r => filesCount s + filesCount r

/-- Number of directory entries in a remote listing, recursively. -/
def dirsCount : RNode → Nat
  | .nilE => 0
  | .consFile _ _ _ r => dirsCount r
  | .consDir _ _ s r => 1 + dirsCount s + dirsCount r

/-- Whether every listing and every download in the remote tree succeeds. -/
def allOk : RNode → Bool
  | .nilE => true
  | .consFile _ _ ok r => ok && allOk r
  | .consDir _ lok s r => lok && allOk s && allOk r

/-- The remote files of a listing rooted below loc: each file's local path
mirrors its relative position, paired with its byte content, in depth-first
order. -/
def remoteFilesBelow : RNode → String → List (String × String)
  | .nilE, _ => []
  | .consFile n c _ r, loc => (loc ++ "/" ++ n, c) :: remoteFilesBelow r loc
  | .consDir n _ s r, loc => remoteFilesBelow s (loc ++ "/" ++ n) ++ remoteFilesBelow r loc

/-- The local entries created for the entries of a listing, beneath loc
(src/unnamed/part_001 lines 150-158 and src/index.js lines 84-92): a file
entry downloads to loc/name; a directory entry first creates its local
directory (the mkdir at the head of the recursive call) and then recurses
depth-first before the remaining siblings are processed.  Returns none as
soon as any listing or download fails: the exception aborts the whole
subtree fetch. -/
def fetchEntries : RNode → String → Option (List LEntry)
  | .nilE, _ => some []
  | .consFile n c ok r, loc =>
    if ok then
      match fetchEntries r loc with
      | some es => some (LEntry.fileL (loc ++ "/" ++ n) c :: es)
      | none => none
    else none
  | .consDir n lok s r, loc =>
    if lok then
      match fetchEntries s (loc ++ "/" ++ n), fetchEntries r loc with
      | some ds, some es => some (LEntry.dirL (loc ++ "/" ++ n) :: (ds ++ es))
      | _, _ => none
    else none

/-- Model of downloadDirectory (src/unnamed/part_001 lines 145-159): create
the local root directory, list the remote path (success rootOk, entries t),
and process every entry; any failure aborts the call. -/
def downloadDirectory (rootOk : Bool) (t : RNode) (loc : String) :
    Option (List LEntry) :=
  if rootOk then
    match fetchEntries t loc with
    | some es => some (LEntry.dirL loc :: es)
    | none => none
  else none

/-- Whether a local entry is a file. -/
def isFileL : LEntry → Bool
  | .fileL _ _ => true
  | _ => false

/-- Whether a local entry is a directory. -/
def isDirL : LEntry → Bool
  | .dirL _ => true
  | _ => false

/-- The files among a list of local entries, with their contents. -/
def fileEntriesOf (es : List LEntry) : List (String × String) :=
  es.filterMap (fun e =>
    match e with
    | LEntry.fileL p c => some (p, c)
    | _ => none)

/-! ## Model of fetchLatestVersion (src/index.js lines 38-60) -/

/-- The hard-coded fallback version of src/index.js lines 55 and 58. -/
def fallbackVersion : String := "v0.3.5"

/-- Split a character list on every dot, as the split call of src/index.js
line 46 does on its single-character separator. -/
def splitOnDot : List Char → List (List Char)
  | [] => [[]]
  | c :: cs =>
    if c = '.' then [] :: splitOnDot cs
    else
      match splitOnDot cs with
      | [] => [[c]]
      | p :: ps => (c :: p) :: ps

/-- The numeric value of a run of decimal digits, as parseInt with radix 10
reads it (src/index.js line 46). -/
def digitsToNat (cs : List Char) : Nat :=
  cs.foldl (fun n c => n * 10 + (c.toNat - 48)) 0

/-- Model of the tag-name regex test of src/index.js line 44: the name is the
letter v followed by two or three dot-separated nonempty runs of digits. -/
def matchesVersionTag (s : String) : Bool :=
  match s.data with
  | 'v' :: rest =>
    let parts := splitOnDot rest
    (parts.length = 2 || parts.length = 3) &&
      parts.all (fun p => !p.isEmpty && p.all Char.isDigit)
  | _ => false

/-- Model of parseVersion (src/index.js line 46): strip the leading v, split
on dots, and read each component as a number. -/
def parseVersion (v : String) : List Nat :=
  (splitOnDot (v.data.drop 1)).map digitsToNat

/-- Comparison of a version against the all-zero padding of an exhausted
version, as the comparator of src/index.js lines 49-52 treats missing
components. -/
def verCompareZeros : List Nat → Ordering
  | [] => .eq
  | b :: bs => (compare 0 b).then (verCompareZeros bs)

/-- Component-wise comparison of parsed versions, with missing components
treated as 0, as in the comparator of src/index.js lines 45-54. -/
def verCompare : List Nat → List Nat → Ordering
  | [], bs => verCompareZeros bs
  | a :: as, [] => (compare a 0).then (verCompare as [])
  | a :: as, b :: bs => (compare a b).then (verCompare as bs)

/-- Boolean greater-or-equal on tag names under the version comparator. -/
def verGeB (a b : String) : Bool :=
  match verCompare (parseVersion a) (parseVersion b) with
  | .lt => false
  | _ => true

/-- One insertion step of a descending sort under the version comparator. -/
def insertVersionDesc (x : String) : List String → List String
  | [] => [x]
  | y :: ys => if verGeB x y then x :: y :: ys else y :: insertVersionDesc x ys

/-- Descending sort of tag names under the version comparator, modelling the
Array.prototype.sort call of src/index.js lines 45-54 (whose comparator puts
the larger version first). -/
def sortVersionsDesc : List String → List String
  | [] => []
  | x :: xs => insertVersionDesc x (sortVersionsDesc xs)

/-- Model of fetchLatestVersion (src/index.js lines 38-60): on a successful
tag listing, keep the names matching the version pattern, sort them in
descending version order and return the first, falling back to the known
version when none matches; on a listing failure return the fallback. -/
def fetchLatestVersion (fetchOk : Bool) (tagNames : List String) : String :=
  if fetchOk then
    match sortVersionsDesc (tagNames.filter matchesVersionTag) with
    | [] => fallbackVersion
    | h :: _ => h
  else fallbackVersion

/-! ## CLI surface and concrete run environments -/

/-- The option flags declared on the commander program of src/unnamed/part_001
lines 364-369: only the preview flag is declared (commander rejects any other
double-dash flag as an unknown option), and installSimone reads only
options.preview (line 232). -/
def programOptionFlags : List String := ["preview"]

/-- A CURRENT-state environment: the v0.4 constitution marker exists and the
stable (legacy) edition is requested. -/
def envCurrentLegacy : Env :=
  { fs := [".simone", ".simone/00_FOUNDATION/CONSTITUTION.md"],
    preview := false, confirmAnswer := true, timestamp := "2025-01-01T00-00-00-000Z",
    fileOk := fun _ => true, treeOk := fun _ => true }

/-- A LEGACY-state environment with the stable (legacy) edition requested and
all fetches succeeding. -/
def envLegacyLegacy : Env :=
  { fs := [".simone", ".simone/03_SPRINTS", ".claude/commands/simone"],
    preview := false, confirmAnswer := true, timestamp := "2025-01-01T00-00-00-000Z",
    fileOk := fun _ => true, treeOk := fun _ => true }

/-- A LEGACY-state environment with the preview (current) edition requested,
confirmation answered affirmatively and all fetches succeeding. -/
def envMigration : Env :=
  { fs := [".simone", ".simone/03_SPRINTS", ".claude/commands/simone"],
    preview := true, confirmAnswer := true, timestamp := "2025-01-01T00-00-00-000Z",
    fileOk := fun _ => true, treeOk := fun _ => true }

/-- A CURRENT-state environment with the preview edition requested and the
confirmation prompt answered negatively. -/
def envCancelled : Env :=
  { fs := [".simone", ".simone/00_FOUNDATION/CONSTITUTION.md"],
    preview := true, confirmAnswer := false, timestamp := "2025-01-01T00-00-00-000Z",
    fileOk := fun _ => true, treeOk := fun _ => true }

/-- An empty project with the stable edition requested and every fetch
failing. -/
def envFreshAllFetchesFail : Env :=
  { fs := [], preview := false, confirmAnswer := true, timestamp := "2025-01-01T00-00-00-000Z",
    fileOk := fun _ => false, treeOk := fun _ => false }

/-- A LEGACY-state environment with the preview edition requested and the
mandatory command-tree fetch failing. -/
def envPreviewCommandsFail : Env :=
  { fs := [".simone", ".simone/03_SPRINTS", ".claude/commands/simone"],
    preview := true, confirmAnswer := true, timestamp := "2025-01-01T00-00-00-000Z",
    fileOk := fun _ => true, treeOk := fun p => p ≠ "framework/commands" }

/-- A CURRENT-state environment with the preview edition requested and the
confirmation prompt answered affirmatively. -/
def envV4Update : Env :=
  { fs := [".simone", ".simone/00_FOUNDATION/CONSTITUTION.md", ".claude/commands/simone"],
    preview := true, confirmAnswer := true, timestamp := "2025-01-01T00-00-00-000Z",
    fileOk := fun _ => true, treeOk := fun _ => true }

/-- A concrete remote tree: one file at the root and one subdirectory with a
nested file, everything reachable and downloadable. -/
def treeEx : RNode :=
  RNode.consFile "README.md" "readme-bytes" true
    (RNode.consDir "nested" true
      (RNode.consFile "inner.md" "inner-bytes" true RNode.nilE) RNode.nilE)

/-- The head of the list, when there is one, dominates every element under
the version comparator. -/
def headIsMax (l : List String) : Prop :=
  ∀ h t, l = h :: t → ∀ x ∈ l, verGeB h x = true

/-! # Theorems -/

/-- C1: when the project state is CURRENT (the constitution marker file
exists) and the legacy edition is requested (no preview flag), the run
performs no filesystem write at all and terminates with exit code 1. -/
theorem current_state_legacy_request_refused (env : Env)
    (hp : env.preview = false)
    (h4 : checkExistingV4Installation env.fs = true) :
    writesOf (installSimone env) = [] ∧ exitOf (installSimone env) = 1 := by
  have h : installSimone env = [Action.exitA 1] := by
    simp [installSimone, hp, h4]
  rw [h]
  exact ⟨rfl, rfl⟩

/-- C1 witness: a concrete CURRENT-state run requesting the legacy edition. -/
theorem current_state_legacy_request_refused_witness :
    writesOf (installSimone envCurrentLegacy) = [] ∧
    exitOf (installSimone envCurrentLegacy) = 1 :=
  current_state_legacy_request_refused envCurrentLegacy rfl rfl

/-- C2: the classifier returns CURRENT whenever the current-marker path
exists, regardless of legacy markers; LEGACY whenever a legacy-marker path
(the sprints or requirements directory) exists and the current marker does
not; and ABSENT when neither marker set is present. -/
theorem classify_marker_precedence (fs : FS) :
    (fs.contains ".simone/00_FOUNDATION/CONSTITUTION.md" = true →
      classify fs = InstallationState.CURRENT) ∧
    ((fs.contains ".simone/03_SPRINTS" = true ∨ fs.contains ".simone/02_REQUIREMENTS" = true) →
      fs.contains ".simone/00_FOUNDATION/CONSTITUTION.md" = false →
      classify fs = InstallationState.LEGACY) ∧
    (fs.contains ".simone/00_FOUNDATION/CONSTITUTION.md" = false →
      fs.contains ".simone/03_SPRINTS" = false →
      fs.contains ".simone/02_REQUIREMENTS" = false →
      classify fs = InstallationState.ABSENT) := by
  refine ⟨fun h4 => ?_, fun h3 h4 => ?_, fun h4 ha hb => ?_⟩
  · simp only [List.contains, List.elem_eq_mem, decide_eq_true_eq] at h4
    simp [classify, checkExistingV4Installation, h4]
  · simp only [List.contains, List.elem_eq_mem, decide_eq_true_eq, decide_eq_false_iff_not] at h3 h4
    rcases h3 with h | h <;>
      simp [classify, checkExistingV4Installation, checkExistingV3Installation, h4, h]
  · simp only [List.contains, List.elem_eq_mem, decide_eq_true_eq, decide_eq_false_iff_not] at h4 ha hb
    simp [classify, checkExistingV4Installation, checkExistingV3Installation, h4, ha, hb]

/-- C2 witness: concrete filesystems for each branch of the classifier,
including a state carrying both marker kinds, where CURRENT wins. -/
theorem classify_marker_precedence_witness :
    classify [".simone/00_FOUNDATION/CONSTITUTION.md", ".simone/03_SPRINTS"]
      = InstallationState.CURRENT ∧
    classify [".simone/03_SPRINTS"] = InstallationState.LEGACY ∧
    classify [".simone"] = InstallationState.ABSENT :=
  ⟨(classify_marker_precedence _).1 (by decide),
   (classify_marker_precedence _).2.1 (Or.inl (by decide)) (by decide),
   (classify_marker_precedence _).2.2 (by decide) (by decide) (by decide)⟩

/-- C8: a negative answer to a confirmation prompt terminates the run with
exit code 0: the trace is exactly the prompt followed by the neutral exit
(in particular not the fatal exit code 1). -/
theorem negative_confirmation_cancels (env : Env)
    (hp : env.preview = true) (hc : env.confirmAnswer = false)
    (hx : checkExistingV4Installation env.fs = true ∨
      checkExistingV3Installation env.fs = true) :
    installSimone env = [Action.promptA, Action.exitA 0] ∧
    exitOf (installSimone env) = 0 := by
  have h : installSimone env = [Action.promptA, Action.exitA 0] := by
    rcases hx with h4 | h3
    · simp [installSimone, hp, hc, h4]
    · cases h4 : checkExistingV4Installation env.fs <;>
        simp [installSimone, hp, hc, h3, h4]
  rw [h]
  exact ⟨rfl, rfl⟩

/-- C8 witness: a concrete CURRENT-state preview run answered negatively. -/
theorem negative_confirmation_cancels_witness :
    installSimone envCancelled = [Action.promptA, Action.exitA 0] ∧
    exitOf (installSimone envCancelled) = 0 :=
  negative_confirmation_cancels envCancelled rfl rfl (Or.inl rfl)

/-- C7: the CLI does not implement a force flag.  The commander program
declares only the preview option, so a force flag is not accepted; and in a
CURRENT-state preview run the confirmation prompt is always issued — no code
path consults a force flag to suppress it. -/
theorem force_flag_not_implemented :
    programOptionFlags.contains "force" = false ∧
    Action.promptA ∈ installSimone envV4Update ∧
    Action.promptA ∈ installSimone envMigration := by
  refine ⟨rfl, ?_, ?_⟩ <;> decide

/-- C5 counterexample: in a concrete LEGACY-state run requesting the legacy
edition, the part_001 installer writes the CLAUDE.md file inside the
management root (refuting that nothing inside .simone is created or
modified) and performs no backup relocation at all (refuting that the
command root is backed up). -/
theorem legacy_legacy_touches_management_root :
    Action.fetchFileA ".simone/CLAUDE.md" ".simone/CLAUDE.md"
      ∈ installSimone envLegacyLegacy ∧
    (installSimone envLegacyLegacy).all (fun a => !isRename a) = true := by
  exact ⟨by decide, by decide⟩

/-- C5 amended: in every LEGACY-state run requesting the legacy edition, the
part_001 installer performs no backup and fetches exactly the four CLAUDE.md
documentation files into the management root followed by the command tree,
while the index.js installer performs the command-root backup first and then
the same fetches; no other management-root path is touched (the trace
equations are exhaustive). -/
theorem legacy_legacy_frame (env : Env) (hp : env.preview = false)
    (h4 : checkExistingV4Installation env.fs = false)
    (h3 : checkExistingV3Installation env.fs = true) :
    installSimone env =
      claudeFiles.map (fun f => Action.fetchFileA f f) ++
      [Action.fetchTreeA ".claude/commands/simone" ".claude/commands/simone",
       Action.successA] ∧
    IndexJs.installSimone env =
      IndexJs.backupCommands env ++
      claudeFiles.map (fun f => Action.fetchFileA f f) ++
      [Action.fetchTreeA ".claude/commands/simone" ".claude/commands/simone",
       Action.successA] := by
  constructor
  · simp [installSimone, hp, h4, h3]
  · have h : IndexJs.checkExistingInstallation env.fs = true := h3
    simp [IndexJs.installSimone, h]

/-- C5 witness: the amended trace equations at a concrete LEGACY-state
environment. -/
theorem legacy_legacy_frame_witness :
    installSimone envLegacyLegacy =
      claudeFiles.map (fun f => Action.fetchFileA f f) ++
      [Action.fetchTreeA ".claude/commands/simone" ".claude/commands/simone",
       Action.successA] ∧
    IndexJs.installSimone envLegacyLegacy =
      IndexJs.backupCommands envLegacyLegacy ++
      claudeFiles.map (fun f => Action.fetchFileA f f) ++
      [Action.fetchTreeA ".claude/commands/simone" ".claude/commands/simone",
       Action.successA] :=
  legacy_legacy_frame envLegacyLegacy rfl rfl rfl

/-- C6 counterexample: a concrete stable-edition fresh-install run in which
every fetch fails — including the mandatory core command set and core
template set — yet the run still reports success and exits 0, because the
stable workflow wraps every fetch in a swallowing catch. -/
theorem stable_mandatory_fetch_failure_reported_success :
    envFreshAllFetchesFail.treeOk ".claude/commands/simone" = false ∧
    envFreshAllFetchesFail.treeOk ".simone/99_TEMPLATES" = false ∧
    reportedSuccess (installSimone envFreshAllFetchesFail) = true ∧
    exitOf (installSimone envFreshAllFetchesFail) = 0 := by
  refine ⟨rfl, rfl, by decide, by decide⟩

/-- C6 amended: only in the preview (current-edition) workflow does a
mandatory fetch failure propagate to the orchestrator: whenever the
command-tree fetch fails in a confirmed preview run, the run exits 1 and is
not reported as a success; in the stable (legacy) workflow every fetch
failure is swallowed and the run is reported successful regardless. -/
theorem preview_mandatory_fetch_failure_aborts (env : Env)
    (hp : env.preview = true) (hc : env.confirmAnswer = true)
    (hf : env.treeOk "framework/commands" = false) :
    exitOf (installSimone env) = 1 ∧
    reportedSuccess (installSimone env) = false := by
  cases h4 : checkExistingV4Installation env.fs
  · cases h3 : checkExistingV3Installation env.fs
    · cases h1 : env.treeOk "framework/.simone" <;>
        simp [installSimone, previewDownloadPhase, downloadDirectoryCall,
          hp, hc, h4, h3, h1, hf, exitOf, reportedSuccess]
    · cases h1 : env.treeOk "framework/.simone" <;>
      by_cases hs : ".simone" ∈ env.fs <;>
      by_cases hcc : ".claude/commands/simone" ∈ env.fs <;>
        simp [installSimone, backupV3ForMigration, previewDownloadPhase,
          downloadDirectoryCall, hp, hc, h4, h3, h1, hs, hcc, hf, exitOf,
          reportedSuccess]
  · by_cases hcc : ".claude/commands/simone" ∈ env.fs <;>
      simp [installSimone, updateV4Commands, downloadDirectoryCall,
        hp, hc, h4, hcc, hf, exitOf, reportedSuccess]

/-- C6 witness: a concrete confirmed preview migration run whose mandatory
command-tree fetch fails aborts with exit code 1 and no success report. -/
theorem preview_mandatory_fetch_failure_aborts_witness :
    exitOf (installSimone envPreviewCommandsFail) = 1 ∧
    reportedSuccess (installSimone envPreviewCommandsFail) = false :=
  preview_mandatory_fetch_failure_aborts envPreviewCommandsFail rfl rfl (by decide)

/-- C3: in every confirmed preview run — which covers both the
LEGACY-to-current migration and the CURRENT update, the only runs that back
up and then fetch onto the same local paths — every backup relocation in the
trace precedes every content fetch, and the backup is complete: each backup
target that exists is relocated (the management root and the command root in
a migration; the command root in an update), so no new content is written to
a path whose old content has not been relocated. -/
theorem backup_completes_before_overwrite (env : Env)
    (hp : env.preview = true) (hc : env.confirmAnswer = true) :
    renamesPrecedeFetches (installSimone env) = true ∧
    (checkExistingV4Installation env.fs = false →
      checkExistingV3Installation env.fs = true →
      (".simone" ∈ env.fs →
        Action.renameA ".simone" (backupPathOf env.timestamp ++ "/.simone")
          ∈ installSimone env) ∧
      (".claude/commands/simone" ∈ env.fs →
        Action.renameA ".claude/commands/simone"
          (backupPathOf env.timestamp ++ "/.claude/commands/simone")
          ∈ installSimone env)) ∧
    (checkExistingV4Installation env.fs = true →
      ".claude/commands/simone" ∈ env.fs →
      Action.renameA ".claude/commands/simone" (v4CommandsBackupPathOf env.timestamp)
        ∈ installSimone env) := by
  cases h4 : checkExistingV4Installation env.fs <;>
  [cases h3 : checkExistingV3Installation env.fs; skip] <;>
  by_cases hs : ".simone" ∈ env.fs <;>
  by_cases hcc : ".claude/commands/simone" ∈ env.fs <;>
  cases h1 : env.treeOk "framework/.simone" <;>
  cases hf : env.treeOk "framework/commands" <;>
    simp_all [installSimone, backupV3ForMigration, updateV4Commands,
      previewDownloadPhase, downloadDirectoryCall,
      renamesPrecedeFetches, isFetch, isRename]

/-- C3 witness: the ordering and backup-completeness facts at a concrete
migration environment where both backup targets exist. -/
theorem backup_completes_before_overwrite_witness :
    renamesPrecedeFetches (installSimone envMigration) = true ∧
    Action.renameA ".simone"
        (backupPathOf envMigration.timestamp ++ "/.simone")
      ∈ installSimone envMigration ∧
    Action.renameA ".claude/commands/simone"
        (backupPathOf envMigration.timestamp ++ "/.claude/commands/simone")
      ∈ installSimone envMigration := by
  have h := backup_completes_before_overwrite envMigration rfl rfl
  exact ⟨h.1, (h.2.1 rfl rfl).1 (by decide), (h.2.1 rfl rfl).2 (by decide)⟩

/-- C4 counterexample: the index.js backupCommands operation uses the fixed
backup path .claude/simone-commands-backup.  Starting from a command root
with content 1, a first backup moves it there; after new commands (content 2)
are installed, a second backup — identical input shape, any wall-clock time —
deletes the first backup and writes the same directory again: the final
filesystem holds only content 2 and content 1 is destroyed, refuting that
two backup operations write two distinct directories preserving the earlier
one. -/
theorem backup_overwrites_prior_backup :
    backupCommandsFs [(".claude/commands/simone", 1)]
      = [(".claude/simone-commands-backup", 1)] ∧
    backupCommandsFs
        (fsSet (backupCommandsFs [(".claude/commands/simone", 1)])
          ".claude/commands/simone" 2)
      = [(".claude/simone-commands-backup", 2)] := by
  exact ⟨by decide, by decide⟩

/-- Lemma: the timestamped backup path determines its timestamp, so distinct
timestamps give distinct backup directories, and equally for any key beneath
them sharing a suffix. -/
theorem backupPathOf_append_inj {t1 t2 : String} (s : String)
    (h : backupPathOf t1 ++ s = backupPathOf t2 ++ s) : t1 = t2 := by
  have hd := congrArg String.data h
  simp only [backupPathOf, String.data_append, List.append_assoc] at hd
  exact String.ext (List.append_cancel_right (List.append_cancel_left hd))

/-- Lemma: a key beneath a timestamped backup directory is longer than 34
characters plus its suffix, so it cannot equal a short fixed path. -/
theorem backupPathOf_append_ne_short (t s x : String)
    (hx : x.length < 34 + s.length) : backupPathOf t ++ s ≠ x := by
  intro he
  have hl := congrArg String.length he
  simp only [backupPathOf, String.length_append] at hl
  have h34 : (".simone_backup/simone-v0.3-backup-" : String).length = 34 := by decide
  rw [h34] at hl
  omega

/-- Lemma: the management-root key beneath one timestamped backup directory
never equals the command-root key beneath another, whatever the timestamps:
their eight-character suffixes differ. -/
theorem backupKey_simone_ne_commands (t1 t2 : String) :
    backupPathOf t1 ++ "/.simone" ≠ backupPathOf t2 ++ "/.claude/commands/simone" := by
  intro he
  have hd : (backupPathOf t1).data ++ ("/.simone" : String).data
      = (backupPathOf t2).data ++ ("/.claude/commands/simone" : String).data := by
    have h := congrArg String.data he
    rwa [String.data_append, String.data_append] at h
  rw [backupPathOf, backupPathOf, String.data_append, String.data_append,
    List.append_assoc, List.append_assoc] at hd
  have hd2 := List.append_cancel_left hd
  have hsplit : ("/.claude/commands/simone" : String).data
      = ("/.claude/command" : String).data ++ ("s/simone" : String).data := by decide
  rw [hsplit, ← List.append_assoc] at hd2
  have h8 := List.append_inj_right' hd2 (by decide)
  exact absurd h8 (by decide)

/-- Lemma: looking up a path different from the removed one is unaffected by
the removal. -/
theorem fsGet_fsRemove_ne (l : FsMap) {p q : String} (hq : p ≠ q) :
    fsGet (fsRemove l q) p = fsGet l p := by
  have hqp : ¬ q = p := fun h => hq h.symm
  induction l with
  | nil => rfl
  | cons e rest ih =>
    by_cases heq : e.1 = q
    · have hep : ¬ e.1 = p := by rw [heq]; exact fun h => hq h.symm
      simp [fsRemove, fsGet, heq, hep, ih, hq, hqp]
    · by_cases hep : e.1 = p <;> simp [fsRemove, fsGet, heq, hep, ih, hq, hqp]

/-- Lemma: looking up a path different from the bound one is unaffected by
the binding. -/
theorem fsGet_fsSet_ne (l : FsMap) {p q : String} (c : Nat) (hq : p ≠ q) :
    fsGet (fsSet l q c) p = fsGet l p := by
  have h : ¬ q = p := fun h => hq h.symm
  simp [fsSet, fsGet, h, fsGet_fsRemove_ne l hq]

/-- Lemma: looking up a path different from both the source and the target of
a rename is unaffected by the rename. -/
theorem fsGet_fsRename_ne (fs : FsMap) {src dst p : String}
    (h1 : p ≠ src) (h2 : p ≠ dst) :
    fsGet (fsRename fs src dst) p = fsGet fs p := by
  unfold fsRename
  cases hsrc : fsGet fs src with
  | none => rfl
  | some c => rw [fsGet_fsSet_ne _ _ h2, fsGet_fsRemove_ne _ h1]

/-- Lemma: the timestamped commands backup path of updateV4Commands
determines its timestamp. -/
theorem v4CommandsBackupPathOf_inj {t1 t2 : String}
    (h : v4CommandsBackupPathOf t1 = v4CommandsBackupPathOf t2) : t1 = t2 := by
  have hd := congrArg String.data h
  simp only [v4CommandsBackupPathOf, String.data_append] at hd
  exact String.ext (List.append_cancel_left hd)

/-- Lemma: the timestamped commands backup path is longer than 36 characters,
so it cannot equal a short fixed path. -/
theorem v4CommandsBackupPathOf_ne_short (t x : String) (hx : x.length < 36) :
    v4CommandsBackupPathOf t ≠ x := by
  intro he
  have hl := congrArg String.length he
  simp only [v4CommandsBackupPathOf, String.length_append] at hl
  have h36 : (".simone_backup/commands-v0.4-backup-" : String).length = 36 := by decide
  rw [h36] at hl
  omega

/-- C4 amended: the timestamped backup operations of part_001 never overwrite
a prior backup: two backupV3ForMigration operations, and likewise two
updateV4Commands backups, with distinct timestamp strings — in particular two
runs within the same second, whose millisecond-precision ISO timestamps
differ — use two distinct backup directories, and the second operation leaves
the first backup's relocated entries exactly where the first operation put
them.  (The fixed-path backupCommands operation of index.js instead deletes
the prior backup, per the counterexample.) -/
theorem timestamped_backup_distinct_and_preserving
    (t1 t2 : String) (hne : t1 ≠ t2) (fs : FsMap) :
    backupPathOf t1 ≠ backupPathOf t2 ∧
    fsGet (backupV3ForMigrationFs t2 fs) (backupPathOf t1 ++ "/.simone")
      = fsGet fs (backupPathOf t1 ++ "/.simone") ∧
    fsGet (backupV3ForMigrationFs t2 fs) (backupPathOf t1 ++ "/.claude/commands/simone")
      = fsGet fs (backupPathOf t1 ++ "/.claude/commands/simone") ∧
    v4CommandsBackupPathOf t1 ≠ v4CommandsBackupPathOf t2 ∧
    fsGet (updateV4CommandsBackupFs t2 fs) (v4CommandsBackupPathOf t1)
      = fsGet fs (v4CommandsBackupPathOf t1) := by
  refine ⟨?_, ?_, ?_, ?_, ?_⟩
  · intro he
    have he2 : backupPathOf t1 ++ "" = backupPathOf t2 ++ "" := by
      simpa using he
    exact hne (backupPathOf_append_inj "" he2)
  · unfold backupV3ForMigrationFs
    rw [fsGet_fsRename_ne, fsGet_fsRename_ne]
    · exact backupPathOf_append_ne_short t1 "/.simone" ".simone" (by decide)
    · intro he
      exact hne (backupPathOf_append_inj "/.simone" he)
    · exact backupPathOf_append_ne_short t1 "/.simone" ".claude/commands/simone" (by decide)
    · exact backupKey_simone_ne_commands t1 t2
  · unfold backupV3ForMigrationFs
    rw [fsGet_fsRename_ne, fsGet_fsRename_ne]
    · exact backupPathOf_append_ne_short t1 "/.claude/commands/simone" ".simone" (by decide)
    · intro he
      exact (backupKey_simone_ne_commands t2 t1) he.symm
    · exact backupPathOf_append_ne_short t1 "/.claude/commands/simone"
        ".claude/commands/simone" (by decide)
    · intro he
      exact hne (backupPathOf_append_inj "/.claude/commands/simone" he)
  · intro he
    exact hne (v4CommandsBackupPathOf_inj he)
  · unfold updateV4CommandsBackupFs
    rw [fsGet_fsRename_ne]
    · exact v4CommandsBackupPathOf_ne_short t1 ".claude/commands/simone" (by decide)
    · intro he
      exact hne (v4CommandsBackupPathOf_inj he)

/-- C4 witness: two concrete same-second timestamps differing only in
milliseconds give distinct backup directories, and a second migration backup
(and likewise a second commands backup) preserves the first backup's
relocated entries. -/
theorem timestamped_backup_distinct_and_preserving_witness :
    backupPathOf "2025-01-01T00-00-00-000Z" ≠ backupPathOf "2025-01-01T00-00-00-500Z" ∧
    fsGet
        (backupV3ForMigrationFs "2025-01-01T00-00-00-500Z"
          [(backupPathOf "2025-01-01T00-00-00-000Z" ++ "/.simone", 1),
           (backupPathOf "2025-01-01T00-00-00-000Z" ++ "/.claude/commands/simone", 2),
           (".simone", 3), (".claude/commands/simone", 4)])
        (backupPathOf "2025-01-01T00-00-00-000Z" ++ "/.simone")
      = fsGet
          [(backupPathOf "2025-01-01T00-00-00-000Z" ++ "/.simone", 1),
           (backupPathOf "2025-01-01T00-00-00-000Z" ++ "/.claude/commands/simone", 2),
           (".simone", 3), (".claude/commands/simone", 4)]
          (backupPathOf "2025-01-01T00-00-00-000Z" ++ "/.simone") ∧
    fsGet
        (backupV3ForMigrationFs "2025-01-01T00-00-00-500Z"
          [(backupPathOf "2025-01-01T00-00-00-000Z" ++ "/.simone", 1),
           (backupPathOf "2025-01-01T00-00-00-000Z" ++ "/.claude/commands/simone", 2),
           (".simone", 3), (".claude/commands/simone", 4)])
        (backupPathOf "2025-01-01T00-00-00-000Z" ++ "/.claude/commands/simone")
      = fsGet
          [(backupPathOf "2025-01-01T00-00-00-000Z" ++ "/.simone", 1),
           (backupPathOf "2025-01-01T00-00-00-000Z" ++ "/.claude/commands/simone", 2),
           (".simone", 3), (".claude/commands/simone", 4)]
          (backupPathOf "2025-01-01T00-00-00-000Z" ++ "/.claude/commands/simone") ∧
    v4CommandsBackupPathOf "2025-01-01T00-00-00-000Z"
      ≠ v4CommandsBackupPathOf "2025-01-01T00-00-00-500Z" ∧
    fsGet
        (updateV4CommandsBackupFs "2025-01-01T00-00-00-500Z"
          [(backupPathOf "2025-01-01T00-00-00-000Z" ++ "/.simone", 1),
           (backupPathOf "2025-01-01T00-00-00-000Z" ++ "/.claude/commands/simone", 2),
           (".simone", 3), (".claude/commands/simone", 4)])
        (v4CommandsBackupPathOf "2025-01-01T00-00-00-000Z")
      = fsGet
          [(backupPathOf "2025-01-01T00-00-00-000Z" ++ "/.simone", 1),
           (backupPathOf "2025-01-01T00-00-00-000Z" ++ "/.claude/commands/simone", 2),
           (".simone", 3), (".claude/commands/simone", 4)]
          (v4CommandsBackupPathOf "2025-01-01T00-00-00-000Z") :=
  timestamped_backup_distinct_and_preserving
    "2025-01-01T00-00-00-000Z" "2025-01-01T00-00-00-500Z" (by decide) _

/-- Lemma: when every listing and download succeeds, fetching the entries of
a remote listing beneath loc produces exactly its files and directories, with
contents mirrored. -/
theorem fetchEntries_allOk (t : RNode) : ∀ loc : String, allOk t = true →
    ∃ es, fetchEntries t loc = some es ∧
      (es.filter isFileL).length = filesCount t ∧
      (es.filter isDirL).length = dirsCount t ∧
      fileEntriesOf es = remoteFilesBelow t loc := by
  induction t with
  | nilE =>
    intro loc _
    exact ⟨[], rfl, rfl, rfl, rfl⟩
  | consFile n c ok r ih =>
    intro loc h
    rw [allOk, Bool.and_eq_true] at h
    obtain ⟨es, he, h1, h2, h3⟩ := ih loc h.2
    refine ⟨LEntry.fileL (loc ++ "/" ++ n) c :: es, ?_, ?_, ?_, ?_⟩
    · simp [fetchEntries, h.1, he]
    · simp only [List.filter_cons, isFileL, if_true, List.length_cons, filesCount, h1]
      omega
    · simpa [List.filter_cons, isDirL, dirsCount] using h2
    · simp [fileEntriesOf, List.filterMap_cons, remoteFilesBelow] at h3 ⊢
      exact h3
  | consDir n lok s r ihs ihr =>
    intro loc h
    rw [allOk, Bool.and_eq_true, Bool.and_eq_true] at h
    obtain ⟨⟨hlok, hsub⟩, hrest⟩ := h
    obtain ⟨ds, hds, hd1, hd2, hd3⟩ := ihs (loc ++ "/" ++ n) hsub
    obtain ⟨es, hes, h1, h2, h3⟩ := ihr loc hrest
    refine ⟨LEntry.dirL (loc ++ "/" ++ n) :: (ds ++ es), ?_, ?_, ?_, ?_⟩
    · simp [fetchEntries, hlok, hds, hes]
    · simp only [List.filter_cons, isFileL, List.filter_append, List.length_append,
        filesCount, if_false, Bool.false_eq_true, hd1, h1]
    · simp only [List.filter_cons, isDirL, List.filter_append, List.length_append,
        List.length_cons, dirsCount, if_true, hd2, h2]
      omega
    · simp only [fileEntriesOf, List.filterMap_cons, List.filterMap_append,
        remoteFilesBelow] at hd3 h3 ⊢
      rw [hd3, h3]

/-- Lemma: a failure anywhere in the remote tree makes the whole entries
fetch fail. -/
theorem fetchEntries_fail (t : RNode) : ∀ loc : String, allOk t = false →
    fetchEntries t loc = none := by
  induction t with
  | nilE =>
    intro loc h
    simp [allOk] at h
  | consFile n c ok r ih =>
    intro loc h
    rw [allOk, Bool.and_eq_false_iff] at h
    rcases h with h | h
    · simp [fetchEntries, h]
    · cases ok <;> simp [fetchEntries, ih loc h]
  | consDir n lok s r ihs ihr =>
    intro loc h
    rw [allOk, Bool.and_eq_false_iff, Bool.and_eq_false_iff] at h
    rcases h with (h | h) | h
    · simp [fetchEntries, h]
    · cases lok <;> simp [fetchEntries, ihs (loc ++ "/" ++ n) h]
    · cases lok <;> [simp [fetchEntries];
        (cases hs : fetchEntries s (loc ++ "/" ++ n) <;>
          simp [fetchEntries, hs, ihr loc h])]

/-- C9: a successful downloadDirectory on a remote tree of N files and D
directories creates the local root plus, beneath it, exactly N local files
and D local directories, each file holding the same byte content as its
remote counterpart at the mirrored relative path; and any listing or
individual download failure makes the whole subtree fetch abort. -/
theorem fetchTree_round_trip (rootOk : Bool) (t : RNode) (loc : String) :
    (rootOk = true → allOk t = true →
      ∃ rest, downloadDirectory rootOk t loc = some (LEntry.dirL loc :: rest) ∧
        (rest.filter isFileL).length = filesCount t ∧
        (rest.filter isDirL).length = dirsCount t ∧
        fileEntriesOf rest = remoteFilesBelow t loc) ∧
    ((rootOk = false ∨ allOk t = false) → downloadDirectory rootOk t loc = none) := by
  constructor
  · intro hr ha
    obtain ⟨es, he, h1, h2, h3⟩ := fetchEntries_allOk t loc ha
    exact ⟨es, by simp [downloadDirectory, hr, he], h1, h2, h3⟩
  · intro h
    rcases h with h | h
    · simp [downloadDirectory, h]
    · cases rootOk <;> simp [downloadDirectory, fetchEntries_fail t loc h]

/-- C9 witness: the round trip on a concrete two-level remote tree with two
files and one directory, and the abort on a root listing failure. -/
theorem fetchTree_round_trip_witness :
    (∃ rest, downloadDirectory true treeEx "cmds" = some (LEntry.dirL "cmds" :: rest) ∧
      (rest.filter isFileL).length = filesCount treeEx ∧
      (rest.filter isDirL).length = dirsCount treeEx ∧
      fileEntriesOf rest = remoteFilesBelow treeEx "cmds") ∧
    downloadDirectory false treeEx "cmds" = none :=
  ⟨(fetchTree_round_trip true treeEx "cmds").1 rfl rfl,
   (fetchTree_round_trip false treeEx "cmds").2 (Or.inl rfl)⟩

/-- Lemma: swapping distributes over sequential composition of orderings. -/
theorem ordering_swap_then (o p : Ordering) : (o.then p).swap = o.swap.then p.swap := by
  cases o <;> rfl

/-- Lemma: the version comparator on the empty left list steps through the
right list against zeros. -/
theorem verCompare_nil_cons (b : Nat) (bs : List Nat) :
    verCompare [] (b :: bs) = (compare 0 b).then (verCompare [] bs) := rfl

/-- Lemma: the version comparator is reflexive. -/
theorem verCompare_self (a : List Nat) : verCompare a a = Ordering.eq := by
  induction a with
  | nil => rfl
  | cons x xs ih =>
    have hx : compare x x = Ordering.eq := Nat.compare_eq_eq.mpr rfl
    simp only [verCompare, hx, ih]
    rfl

/-- Lemma: the version comparator is antisymmetric under swapping. -/
theorem verCompare_swap : ∀ (a b : List Nat), (verCompare a b).swap = verCompare b a
  | [], [] => rfl
  | a :: as, b :: bs => by
    simp only [verCompare, ordering_swap_then, Nat.compare_swap, verCompare_swap as bs]
  | [], b :: bs => by
    rw [verCompare_nil_cons, ordering_swap_then, Nat.compare_swap, verCompare_swap [] bs]
    simp only [verCompare]
  | a :: as, [] => by
    rw [verCompare_nil_cons]
    simp only [verCompare, ordering_swap_then, Nat.compare_swap, verCompare_swap as []]
  termination_by a b => a.length + b.length

/-- Lemma: one component step of transitivity for the version comparator. -/
theorem then_trans_step {x y z : Nat} {p q r : Ordering}
    (hp : p ≠ Ordering.lt → q ≠ Ordering.lt → r ≠ Ordering.lt)
    (h1 : (compare x y).then p ≠ Ordering.lt)
    (h2 : (compare y z).then q ≠ Ordering.lt) :
    (compare x z).then r ≠ Ordering.lt := by
  cases hxy : compare x y with
  | lt => rw [hxy] at h1; exact absurd rfl h1
  | eq =>
    have hxey : x = y := Nat.compare_eq_eq.mp hxy
    rw [hxy] at h1
    cases hyz : compare y z with
    | lt => rw [hyz] at h2; exact absurd rfl h2
    | eq =>
      have hyez : y = z := Nat.compare_eq_eq.mp hyz
      rw [hyz] at h2
      rw [Nat.compare_eq_eq.mpr (hxey.trans hyez)]
      exact hp h1 h2
    | gt =>
      have hzy : z < y := Nat.compare_eq_gt.mp hyz
      rw [Nat.compare_eq_gt.mpr (hxey ▸ hzy)]
      intro h
      exact Ordering.noConfusion h
  | gt =>
    have hyx : y < x := Nat.compare_eq_gt.mp hxy
    cases hyz : compare y z with
    | lt => rw [hyz] at h2; exact absurd rfl h2
    | eq =>
      have hyez : y = z := Nat.compare_eq_eq.mp hyz
      rw [Nat.compare_eq_gt.mpr (hyez ▸ hyx)]
      intro h
      exact Ordering.noConfusion h
    | gt =>
      have hzy : z < y := Nat.compare_eq_gt.mp hyz
      rw [Nat.compare_eq_gt.mpr (Nat.lt_trans hzy hyx)]
      intro h
      exact Ordering.noConfusion h

/-- Lemma: the version comparator is transitive on the not-less relation. -/
theorem verCompare_trans : ∀ (a b c : List Nat),
    verCompare a b ≠ Ordering.lt → verCompare b c ≠ Ordering.lt →
    verCompare a c ≠ Ordering.lt
  | [], [], _, _, h2 => h2
  | (_ :: _), [], [], h1, _ => h1
  | [], (_ :: _), [], _, _ => by
    intro h
    exact Ordering.noConfusion h
  | a :: as, b :: bs, c :: cs, h1, h2 => by
    simp only [verCompare] at h1 h2 ⊢
    exact then_trans_step (verCompare_trans as bs cs) h1 h2
  | a :: as, b :: bs, [], h1, h2 => by
    simp only [verCompare] at h1 h2 ⊢
    exact then_trans_step (verCompare_trans as bs []) h1 h2
  | a :: as, [], c :: cs, h1, h2 => by
    rw [verCompare_nil_cons] at h2
    simp only [verCompare] at h1 h2 ⊢
    exact then_trans_step (verCompare_trans as [] cs) h1 h2
  | [], b :: bs, c :: cs, h1, h2 => by
    rw [verCompare_nil_cons] at h1 ⊢
    simp only [verCompare] at h1 h2 ⊢
    exact then_trans_step (verCompare_trans [] bs cs) h1 h2
  termination_by a b c => a.length + b.length + c.length

/-- Lemma: the boolean version order holds exactly when the comparator is not
less. -/
theorem verGeB_eq_true_iff (a b : String) :
    verGeB a b = true ↔ verCompare (parseVersion a) (parseVersion b) ≠ Ordering.lt := by
  unfold verGeB
  cases h : verCompare (parseVersion a) (parseVersion b) <;> simp [h]

/-- Lemma: the boolean version order is reflexive. -/
theorem verGeB_refl (x : String) : verGeB x x = true :=
  (verGeB_eq_true_iff x x).mpr (by
    rw [verCompare_self]
    intro h
    exact Ordering.noConfusion h)

/-- Lemma: the boolean version order is total. -/
theorem verGeB_total {x y : String} (h : ¬ verGeB x y = true) : verGeB y x = true := by
  rw [verGeB_eq_true_iff] at h ⊢
  have hlt : verCompare (parseVersion x) (parseVersion y) = Ordering.lt := by
    by_contra hc
    exact h hc
  rw [← verCompare_swap, hlt]
  intro hcon
  exact Ordering.noConfusion hcon

/-- Lemma: the boolean version order is transitive. -/
theorem verGeB_trans {x y z : String} (h1 : verGeB x y = true) (h2 : verGeB y z = true) :
    verGeB x z = true := by
  rw [verGeB_eq_true_iff] at h1 h2 ⊢
  exact verCompare_trans _ _ _ h1 h2

/-- Lemma: membership in an insertion step. -/
theorem mem_insertVersionDesc {y x : String} {l : List String} :
    y ∈ insertVersionDesc x l ↔ y = x ∨ y ∈ l := by
  induction l with
  | nil => simp [insertVersionDesc]
  | cons z zs ih =>
    by_cases h : verGeB x z = true
    · simp [insertVersionDesc, h]
    · simp [insertVersionDesc, h, ih]
      tauto

/-- Lemma: membership is preserved by the descending sort. -/
theorem mem_sortVersionsDesc {y : String} : ∀ {l : List String},
    y ∈ sortVersionsDesc l ↔ y ∈ l := by
  intro l
  induction l with
  | nil => simp [sortVersionsDesc]
  | cons z zs ih => simp [sortVersionsDesc, mem_insertVersionDesc, ih]

/-- Lemma: inserting into a list whose head dominates it yields a list whose
head dominates it. -/
theorem insertVersionDesc_head_ge :
    ∀ (s : List String) (x h : String) (t : List String),
      insertVersionDesc x s = h :: t →
      (∀ hs ts, s = hs :: ts → ∀ y ∈ s, verGeB hs y = true) →
      ∀ y, (y = x ∨ y ∈ s) → verGeB h y = true := by
  intro s x h t hins hmax y hy
  cases s with
  | nil =>
    rw [insertVersionDesc] at hins
    injection hins with hh _
    rcases hy with rfl | hy
    · rw [← hh]
      exact verGeB_refl y
    · exact absurd hy (List.not_mem_nil y)
  | cons z zs =>
    by_cases hxz : verGeB x z = true
    · rw [insertVersionDesc, if_pos hxz] at hins
      injection hins with hh _
      subst hh
      rcases hy with rfl | hy
      · exact verGeB_refl y
      · rcases List.mem_cons.mp hy with rfl | hmem
        · exact hxz
        · exact verGeB_trans hxz (hmax z zs rfl y (List.mem_cons_of_mem z hmem))
    · rw [insertVersionDesc, if_neg hxz] at hins
      injection hins with hh _
      rw [← hh]
      rcases hy with rfl | hy
      · exact verGeB_total hxz
      · rcases List.mem_cons.mp hy with rfl | hmem
        · exact verGeB_refl y
        · exact hmax z zs rfl y (List.mem_cons_of_mem z hmem)

/-- Lemma: the head of the descending sort dominates every element of the
input list. -/
theorem sortVersionsDesc_head_ge : ∀ (l : List String) {h : String} {t : List String},
    sortVersionsDesc l = h :: t → ∀ x ∈ l, verGeB h x = true := by
  intro l
  induction l with
  | nil =>
    intro h t he x hx
    exact absurd hx (List.not_mem_nil x)
  | cons z zs ih =>
    intro h t he x hx
    rw [sortVersionsDesc] at he
    have hmax : ∀ hs ts, sortVersionsDesc zs = hs :: ts →
        ∀ y ∈ sortVersionsDesc zs, verGeB hs y = true := by
      intro hs ts hst y hy
      exact ih hst y (mem_sortVersionsDesc.mp hy)
    rcases List.mem_cons.mp hx with rfl | hmem
    · exact insertVersionDesc_head_ge _ _ _ _ he hmax x (Or.inl rfl)
    · exact insertVersionDesc_head_ge _ _ _ _ he hmax x
        (Or.inr (mem_sortVersionsDesc.mpr hmem))

/-- C10: fetchLatestVersion returns the fallback when the listing fails or no
tag matches the version pattern; otherwise it returns a matching tag from the
list that dominates every matching tag under component-wise numeric
comparison with missing components treated as zero. -/
theorem fetchLatestVersion_max (ok : Bool) (tags : List String) :
    (ok = false → fetchLatestVersion ok tags = fallbackVersion) ∧
    ((∀ t ∈ tags, matchesVersionTag t = false) →
      fetchLatestVersion ok tags = fallbackVersion) ∧
    (ok = true → ∀ t ∈ tags, matchesVersionTag t = true →
      fetchLatestVersion ok tags ∈ tags ∧
      matchesVersionTag (fetchLatestVersion ok tags) = true ∧
      verGeB (fetchLatestVersion ok tags) t = true) := by
  refine ⟨fun h => by simp [fetchLatestVersion, h], fun hall => ?_, fun hok t ht hmt => ?_⟩
  · have hfil : tags.filter matchesVersionTag = [] := by
      rw [List.filter_eq_nil_iff]
      intro a ha
      simp [hall a ha]
    cases ok <;> simp [fetchLatestVersion, hfil, sortVersionsDesc]
  · subst hok
    have htf : t ∈ tags.filter matchesVersionTag := List.mem_filter.mpr ⟨ht, hmt⟩
    cases hs : sortVersionsDesc (tags.filter matchesVersionTag) with
    | nil =>
      have hmem := mem_sortVersionsDesc.mpr htf
      rw [hs] at hmem
      exact absurd hmem (List.not_mem_nil t)
    | cons h rest =>
      have hres : fetchLatestVersion true tags = h := by
        simp [fetchLatestVersion, hs]
      have hmem : h ∈ tags.filter matchesVersionTag := by
        have hh : h ∈ sortVersionsDesc (tags.filter matchesVersionTag) := by
          rw [hs]
          exact List.mem_cons_self h rest
        exact mem_sortVersionsDesc.mp hh
      have hmf := List.mem_filter.mp hmem
      rw [hres]
      exact ⟨hmf.1, hmf.2, sortVersionsDesc_head_ge _ hs t htf⟩

/-- C10 witness: the fallback on a failed listing and on a matchless list,
and the maximum on a concrete tag list with distractors. -/
theorem fetchLatestVersion_max_witness :
    fetchLatestVersion false ["v1.2"] = fallbackVersion ∧
    fetchLatestVersion true ["alpha", "1.2"] = fallbackVersion ∧
    (fetchLatestVersion true ["v1.2", "alpha", "v2.0.0", "v2.1"]
        ∈ ["v1.2", "alpha", "v2.0.0", "v2.1"] ∧
      matchesVersionTag (fetchLatestVersion true ["v1.2", "alpha", "v2.0.0", "v2.1"]) = true ∧
      verGeB (fetchLatestVersion true ["v1.2", "alpha", "v2.0.0", "v2.1"]) "v2.0.0" = true) :=
  ⟨(fetchLatestVersion_max false ["v1.2"]).1 rfl,
   (fetchLatestVersion_max true ["alpha", "1.2"]).2.1 (by decide),
   (fetchLatestVersion_max true ["v1.2", "alpha", "v2.0.0", "v2.1"]).2.2 rfl
     "v2.0.0" (by decide) (by decide)⟩

end HelloSimone
